import Mathlib

/-!
Verification of the `elf` starter kit's two pieces of original logic:

* the Cache-Bust Resolver (`src/_data/cacheBust.js`), which maps a fixed
  Asset Registry of logical keys to cache-busting tokens (an MD5 content
  digest in production mode, a `Date.now()` timestamp otherwise); and
* the Permalink Deriver (the `_pages.json` permalink template), which maps a
  page's `filePathStem` to its destination URL via two JavaScript
  `String.replace` calls and a fixed `/index.html` suffix.

The JavaScript is embedded shallowly: file-system state is a partial map
from paths to byte lists, `Date.now()` is a clock indexed by how many times
it has been sampled, the `md5-file` library is modelled by a full
executable MD5 implementation, thrown exceptions become `Except`, and the
file reads performed by `md5File.sync` are recorded in an explicit effect
trace so that frame claims can be stated.
-/

namespace elf

/-! ## MD5 (model of the external `md5-file` library)

`md5File.sync(path)` returns the lowercase hexadecimal MD5 digest of the
file's bytes.  A byte is a `Nat` below 256; words are `Nat`s reduced
modulo `2 ^ 32` explicitly. -/

/-- Truncate to a 32-bit word. -/
def w32 (n : Nat) : Nat := n % 4294967296

/-- Left-rotate a 32-bit word by `s` bits. -/
def rotl32 (x s : Nat) : Nat :=
  w32 ((x <<< s) ||| (x >>> (32 - s)))

/-- Bitwise complement of a 32-bit word. -/
def not32 (x : Nat) : Nat := x ^^^ 4294967295

/-- The MD5 per-round sine-derived constant table. -/
def md5K : List Nat :=
  [0xd76aa478, 0xe8c7b756, 0x242070db, 0xc1bdceee,
   0xf57c0faf, 0x4787c62a, 0xa8304613, 0xfd469501,
   0x698098d8, 0x8b44f7af, 0xffff5bb1, 0x895cd7be,
   0x6b901122, 0xfd987193, 0xa679438e, 0x49b40821,
   0xf61e2562, 0xc040b340, 0x265e5a51, 0xe9b6c7aa,
   0xd62f105d, 0x02441453, 0xd8a1e681, 0xe7d3fbc8,
   0x21e1cde6, 0xc33707d6, 0xf4d50d87, 0x455a14ed,
   0xa9e3e905, 0xfcefa3f8, 0x676f02d9, 0x8d2a4c8a,
   0xfffa3942, 0x8771f681, 0x6d9d6122, 0xfde5380c,
   0xa4beea44, 0x4bdecfa9, 0xf6bb4b60, 0xbebfbc70,
   0x289b7ec6, 0xeaa127fa, 0xd4ef3085, 0x04881d05,
   0xd9d4d039, 0xe6db99e5, 0x1fa27cf8, 0xc4ac5665,
   0xf4292244, 0x432aff97, 0xab9423a7, 0xfc93a039,
   0x655b59c3, 0x8f0ccc92, 0xffeff47d, 0x85845dd1,
   0x6fa87e4f, 0xfe2ce6e0, 0xa3014314, 0x4e0811a1,
   0xf7537e82, 0xbd3af235, 0x2ad7d2bb, 0xeb86d391]

/-- The MD5 per-round shift-amount table. -/
def md5S : List Nat :=
  [7, 12, 17, 22, 7, 12, 17, 22, 7, 12, 17, 22, 7, 12, 17, 22,
   5, 9, 14, 20, 5, 9, 14, 20, 5, 9, 14, 20, 5, 9, 14, 20,
   4, 11, 16, 23, 4, 11, 16, 23, 4, 11, 16, 23, 4, 11, 16, 23,
   6, 10, 15, 21, 6, 10, 15, 21, 6, 10, 15, 21, 6, 10, 15, 21]

/-- The MD5 round function selected by round index `i`. -/
def md5F (i b c d : Nat) : Nat :=
  if i < 16 then (b &&& c) ||| (not32 b &&& d)
  else if i < 32 then (d &&& b) ||| (not32 d &&& c)
  else if i < 48 then b ^^^ c ^^^ d
  else c ^^^ (b ||| not32 d)

/-- The MD5 message-word index for round `i`. -/
def md5G (i : Nat) : Nat :=
  if i < 16 then i
  else if i < 32 then (5 * i + 1) % 16
  else if i < 48 then (3 * i + 5) % 16
  else (7 * i) % 16

/-- Working state of the MD5 compression function. -/
structure MD5State where
  a : Nat
  b : Nat
  c : Nat
  d : Nat
deriving Repr, DecidableEq

/-- The MD5 initialisation vector. -/
def md5Init : MD5State := ⟨0x67452301, 0xefcdab89, 0x98badcfe, 0x10325476⟩

/-- One MD5 round applied to the working state, given the 16 message words. -/
def md5Round (m : List Nat) (st : MD5State) (i : Nat) : MD5State :=
  let f := w32 (md5F i st.b st.c st.d + st.a + md5K.getD i 0 + m.getD (md5G i) 0)
  ⟨st.d, w32 (st.b + rotl32 f (md5S.getD i 0)), st.b, st.c⟩

/-- Decode a byte list into little-endian 32-bit words. -/
def toWords : List Nat → List Nat
  | b0 :: b1 :: b2 :: b3 :: rest =>
      (b0 + 256 * b1 + 65536 * b2 + 16777216 * b3) :: toWords rest
  | _ => []

/-- The MD5 compression function on one 64-byte chunk. -/
def md5Block (st : MD5State) (chunk : List Nat) : MD5State :=
  let m := toWords chunk
  let r := (List.range 64).foldl (md5Round m) st
  ⟨w32 (st.a + r.a), w32 (st.b + r.b), w32 (st.c + r.c), w32 (st.d + r.d)⟩

/-- Fold the compression function over successive 64-byte chunks.  The fuel
argument makes the recursion structural; it is always called with fuel at
least the number of chunks. -/
def md5Loop : Nat → MD5State → List Nat → MD5State
  | 0, st, _ => st
  | _, st, [] => st
  | fuel + 1, st, l => md5Loop fuel (md5Block st (l.take 64)) (l.drop 64)

/-- Little-endian byte serialisation of `n`, `count` bytes long. -/
def leBytes : Nat → Nat → List Nat
  | _, 0 => []
  | n, count + 1 => (n % 256) :: leBytes (n / 256) count

/-- MD5 padding: `0x80`, zeros to 56 mod 64, then the 64-bit little-endian
bit length of the original message. -/
def md5Pad (msg : List Nat) : List Nat :=
  let zeros := (120 - (msg.length + 1) % 64) % 64
  msg ++ 0x80 :: List.replicate zeros 0 ++ leBytes (msg.length * 8 % 18446744073709551616) 8

/-- The 16 digest bytes of a byte message. -/
def md5Bytes (msg : List Nat) : List Nat :=
  let padded := md5Pad msg
  let st := md5Loop padded.length md5Init padded
  leBytes st.a 4 ++ leBytes st.b 4 ++ leBytes st.c 4 ++ leBytes st.d 4

/-- Lowercase hexadecimal digit for `n < 16`. -/
def hexDigit (n : Nat) : Char :=
  if n < 10 then Char.ofNat (48 + n) else Char.ofNat (87 + n)

/-- Two-digit lowercase hexadecimal rendering of one byte. -/
def byteHex (b : Nat) : List Char := [hexDigit (b / 16), hexDigit (b % 16)]

/-- Lowercase hexadecimal encoding of the MD5 digest of a byte message:
the value returned by the `md5-file` library for a file with those bytes. -/
def md5Hex (msg : List Nat) : String :=
  String.mk ((md5Bytes msg).map byteHex).flatten

set_option maxRecDepth 40000 in
example : md5Hex [] = "d41d8cd98f00b204e9800998ecf8427e" := by rfl

set_option maxRecDepth 40000 in
example : md5Hex [97, 98, 99] = "900150983cd24fb0d6963f7d28e17f72" := by rfl

/-! ## Cache-Bust Resolver (embedding of `src/_data/cacheBust.js`)

```js
const cacheBust = () => {
  const files = {
    mainCss: './src/compiled-assets/main.css',
    mainJs: './src/compiled-assets/main.js',
    vendorJs: './src/compiled-assets/vendor.js',
  };
  return Object.entries(files).reduce((acc, [key, path]) => {
    const now = Date.now();
    const bust = process.env.ELEVENTY_ENV === 'production'
      ? md5File.sync(path, (_err, hash) => hash) : now;
    acc[key] = bust;
    return acc;
  }, {});
};
```

The ambient state the function touches is collected in `BuildCtx`:
`env` is `process.env.ELEVENTY_ENV`, `fs` maps a path to the bytes of the
file there (`none` when no file exists), and `clock i` is the value
`Date.now()` returns the `i`-th time it is called during the invocation
(`Date.now()` is called once per loop iteration, in both modes).
`md5File.sync` throws `ENOENT` on a missing file, which aborts the
`reduce`; this is the `Except` error path.  Every file read performed by
`md5File.sync` is recorded in an effect trace. -/

/-- A cache-busting token: an MD5 hex digest string in production, a
`Date.now()` millisecond number otherwise. -/
inductive Token where
  | hash : String → Token
  | time : Nat → Token
deriving Repr, DecidableEq

/-- A file-system effect (the Resolver only ever performs reads; `write`
exists so that the absence of writes is expressible). -/
inductive Effect where
  | read : String → Effect
  | write : String → Effect
deriving Repr, DecidableEq

/-- A thrown Node.js error; `md5File.sync` throws `ENOENT` for the given
path when the file does not exist. -/
inductive JsError where
  | enoent : String → JsError
deriving Repr, DecidableEq

/-- The ambient state read by one `cacheBust()` invocation. -/
structure BuildCtx where
  env : Option String
  fs : String → Option (List Nat)
  clock : Nat → Nat

/-- `md5File.sync`: the hex MD5 digest of the file at `path`, or a thrown
`ENOENT` when no such file exists. -/
def md5File.sync (fs : String → Option (List Nat)) (path : String) :
    Except JsError String :=
  match fs path with
  | some bytes => .ok (md5Hex bytes)
  | none => .error (.enoent path)

/-- JavaScript property assignment `acc[key] = v` on an object represented
as its ordered entry list: an existing key is updated in place, a new key
is appended. -/
def jsAssign (acc : List (String × Token)) (k : String) (v : Token) :
    List (String × Token) :=
  if k ∈ acc.map Prod.fst then
    acc.map fun e => if e.1 = k then (k, v) else e
  else
    acc ++ [(k, v)]

/-- State threaded through the `reduce`: the accumulator object, the number
of `Date.now()` calls made so far, and the file effects performed so far. -/
structure ResolveState where
  acc : List (String × Token)
  tick : Nat
  trace : List Effect
deriving Repr, DecidableEq

/-- One iteration of the `reduce` callback on entry `(key, path)`:
`Date.now()` is sampled unconditionally, then production mode hashes the
file (recording the read, propagating `ENOENT`) while any other mode uses
the freshly sampled timestamp. -/
def cacheBustStep (ctx : BuildCtx) (st : ResolveState) (entry : String × String) :
    Except JsError ResolveState :=
  let now := ctx.clock st.tick
  if ctx.env = some "production" then
    match md5File.sync ctx.fs entry.2 with
    | .ok h =>
        .ok ⟨jsAssign st.acc entry.1 (.hash h), st.tick + 1,
             st.trace ++ [.read entry.2]⟩
    | .error e => .error e
  else
    .ok ⟨jsAssign st.acc entry.1 (.time now), st.tick + 1, st.trace⟩

/-- The `reduce` itself: iterate `cacheBustStep` over the registry entries
in order; a thrown error aborts the remaining iterations. -/
def runEntries (ctx : BuildCtx) (registry : List (String × String))
    (st : ResolveState) : Except JsError ResolveState :=
  match registry with
  | [] => .ok st
  | e :: rest =>
      match cacheBustStep ctx st e with
      | .ok st2 => runEntries ctx rest st2
      | .error err => .error err

/-- The Asset Registry literal `files`, in declaration order
(`Object.entries` preserves it). -/
def files : List (String × String) :=
  [("mainCss", "./src/compiled-assets/main.css"),
   ("mainJs", "./src/compiled-assets/main.js"),
   ("vendorJs", "./src/compiled-assets/vendor.js")]

/-- The full `cacheBust()` invocation: run the reduce over `files` from an
empty object, returning the Cache-Bust Table. -/
def cacheBust (ctx : BuildCtx) : Except JsError (List (String × Token)) :=
  (runEntries ctx files ⟨[], 0, []⟩).map ResolveState.acc

/-- Query the Cache-Bust Table by logical key (first binding wins, as in a
JavaScript object, whose keys are unique). -/
def tableGet (t : List (String × Token)) (k : String) : Option Token :=
  match t with
  | [] => none
  | e :: rest => if e.1 = k then some e.2 else tableGet rest k

/-! ## Permalink Deriver (embedding of the `_pages.json` template)

```json
{ "permalink":
  "<%- page.filePathStem.replace('/_pages', '').replace('/index', '') %>/index.html" }
```

JavaScript `String.replace` with a string pattern replaces the first
(leftmost) occurrence of the pattern, or returns the string unchanged when
the pattern does not occur.  Stems are modelled as character lists. -/

/-- JavaScript `s.replace(pat, repl)` for a string pattern: replace the
leftmost occurrence of `pat` in `s`, if any. -/
def replaceFirst : List Char → List Char → List Char → List Char
  | [], pat, repl => if pat.isEmpty then repl else []
  | c :: rest, pat, repl =>
      if pat.isPrefixOf (c :: rest) then repl ++ (c :: rest).drop pat.length
      else c :: replaceFirst rest pat repl

/-- Whether `pat` occurs as a contiguous substring of `l`. -/
def containsSub (l pat : List Char) : Bool :=
  match l with
  | [] => pat.isEmpty
  | c :: rest => pat.isPrefixOf (c :: rest) || containsSub rest pat

/-- The stem after the first `replace`: the first occurrence of the
source-root segment `/_pages` removed. -/
def remainingStem (stem : List Char) : List Char :=
  replaceFirst stem "/_pages".toList []

/-- The Permalink Deriver: remove the first occurrence of `/_pages`, then
the first occurrence of `/index`, then append `/index.html`. -/
def permalink (stem : List Char) : List Char :=
  replaceFirst (remainingStem stem) "/index".toList [] ++ "/index.html".toList

example : permalink "/_pages/index".toList = "/index.html".toList := by decide

example : permalink "/_pages/foo/bar".toList = "/foo/bar/index.html".toList := by decide

/-! ## Characterisation lemmas for the Resolver -/

/-- The production-mode table: each registry entry keyed to the hex MD5
digest of its file's bytes. -/
def prodEntries (fs : String → Option (List Nat)) (reg : List (String × String)) :
    List (String × Token) :=
  reg.map fun e => (e.1, Token.hash (md5Hex ((fs e.2).getD [])))

/-- The development-mode table from clock position `i`: the `j`-th entry
keyed to the timestamp sampled at tick `i + j`. -/
def devEntries (clock : Nat → Nat) : Nat → List (String × String) → List (String × Token)
  | _, [] => []
  | i, e :: rest => (e.1, Token.time (clock i)) :: devEntries clock (i + 1) rest

theorem jsAssign_fresh {acc : List (String × Token)} {k : String} (v : Token)
    (h : k ∉ acc.map Prod.fst) : jsAssign acc k v = acc ++ [(k, v)] := by
  simp [jsAssign, h]

/-- Production success closed form: when every file exists and the keys are
fresh and distinct, the reduce appends one digest entry and one read per
registry entry. -/
theorem runEntries_prod_eq (ctx : BuildCtx) (henv : ctx.env = some "production")
    (reg : List (String × String)) (st : ResolveState)
    (hall : ∀ e ∈ reg, (ctx.fs e.2).isSome)
    (hfresh : ∀ e ∈ reg, e.1 ∉ st.acc.map Prod.fst)
    (hnd : (reg.map Prod.fst).Nodup) :
    runEntries ctx reg st =
      .ok ⟨st.acc ++ prodEntries ctx.fs reg, st.tick + reg.length,
           st.trace ++ reg.map (fun e => Effect.read e.2)⟩ := by
  induction reg generalizing st with
  | nil => simp [runEntries, prodEntries]
  | cons e rest ih =>
    rw [List.map_cons, List.nodup_cons] at hnd
    obtain ⟨b, hb⟩ := Option.isSome_iff_exists.mp (hall e (by simp))
    have hstep : cacheBustStep ctx st e =
        .ok ⟨st.acc ++ [(e.1, Token.hash (md5Hex b))], st.tick + 1,
             st.trace ++ [.read e.2]⟩ := by
      simp [cacheBustStep, henv, md5File.sync, hb,
        jsAssign_fresh _ (hfresh e (by simp))]
    have hrun : runEntries ctx (e :: rest) st =
        runEntries ctx rest
          ⟨st.acc ++ [(e.1, Token.hash (md5Hex b))], st.tick + 1,
           st.trace ++ [.read e.2]⟩ := by
      rw [runEntries, hstep]
    rw [hrun, ih _ (fun e' he' => hall e' (by simp [he']))
      (fun e' he' => by
        simp only [List.map_append, List.mem_append]
        push_neg
        refine ⟨hfresh e' (by simp [he']), ?_⟩
        intro hmem
        simp only [List.map_cons, List.map_nil, List.mem_singleton] at hmem
        exact hnd.1 (hmem ▸ List.mem_map_of_mem Prod.fst he'))
      hnd.2]
    simp [prodEntries, hb, List.append_assoc]
    omega

/-- Development success closed form: any non-production mode appends one
timestamp entry per registry entry, sampling the clock at successive
ticks, and performs no file effects. -/
theorem runEntries_dev_eq (ctx : BuildCtx) (henv : ctx.env ≠ some "production")
    (reg : List (String × String)) (st : ResolveState)
    (hfresh : ∀ e ∈ reg, e.1 ∉ st.acc.map Prod.fst)
    (hnd : (reg.map Prod.fst).Nodup) :
    runEntries ctx reg st =
      .ok ⟨st.acc ++ devEntries ctx.clock st.tick reg, st.tick + reg.length,
           st.trace⟩ := by
  induction reg generalizing st with
  | nil => simp [runEntries, devEntries]
  | cons e rest ih =>
    rw [List.map_cons, List.nodup_cons] at hnd
    have hstep : cacheBustStep ctx st e =
        .ok ⟨st.acc ++ [(e.1, Token.time (ctx.clock st.tick))], st.tick + 1,
             st.trace⟩ := by
      simp [cacheBustStep, henv, jsAssign_fresh _ (hfresh e (by simp))]
    have hrun : runEntries ctx (e :: rest) st =
        runEntries ctx rest
          ⟨st.acc ++ [(e.1, Token.time (ctx.clock st.tick))], st.tick + 1,
           st.trace⟩ := by
      rw [runEntries, hstep]
    rw [hrun, ih _
      (fun e' he' => by
        simp only [List.map_append, List.mem_append]
        push_neg
        refine ⟨hfresh e' (by simp [he']), ?_⟩
        intro hmem
        simp only [List.map_cons, List.map_nil, List.mem_singleton] at hmem
        exact hnd.1 (hmem ▸ List.mem_map_of_mem Prod.fst he'))
      hnd.2]
    simp [devEntries, List.append_assoc]
    omega

/-- Production failure: as soon as some registry file is missing, the
reduce aborts with a propagated `ENOENT` for a missing path. -/
theorem runEntries_prod_error (ctx : BuildCtx) (henv : ctx.env = some "production")
    (reg : List (String × String)) (st : ResolveState)
    (hmiss : ∃ e ∈ reg, ctx.fs e.2 = none) :
    ∃ p, runEntries ctx reg st = .error (.enoent p) ∧ ctx.fs p = none := by
  induction reg generalizing st with
  | nil => simp at hmiss
  | cons e rest ih =>
    cases hfe : ctx.fs e.2 with
    | none =>
      refine ⟨e.2, ?_, hfe⟩
      have hstep : cacheBustStep ctx st e = .error (.enoent e.2) := by
        simp [cacheBustStep, henv, md5File.sync, hfe]
      rw [runEntries, hstep]
    | some b =>
      have hstep : cacheBustStep ctx st e =
          .ok ⟨jsAssign st.acc e.1 (.hash (md5Hex b)), st.tick + 1,
               st.trace ++ [.read e.2]⟩ := by
        simp [cacheBustStep, henv, md5File.sync, hfe]
      have hrun : runEntries ctx (e :: rest) st =
          runEntries ctx rest
            ⟨jsAssign st.acc e.1 (.hash (md5Hex b)), st.tick + 1,
             st.trace ++ [.read e.2]⟩ := by
        rw [runEntries, hstep]
      obtain ⟨e', he', hfe'⟩ := hmiss
      rcases List.mem_cons.mp he' with h | h
      · rw [h, hfe] at hfe'
        cases hfe'
      · rw [hrun]
        exact ih _ ⟨e', h, hfe'⟩

/-- On production success every registry file exists. -/
theorem runEntries_prod_ok_all (ctx : BuildCtx) (henv : ctx.env = some "production")
    (reg : List (String × String)) (st st' : ResolveState)
    (hok : runEntries ctx reg st = .ok st') :
    ∀ e ∈ reg, (ctx.fs e.2).isSome := by
  intro e he
  cases hfe : ctx.fs e.2 with
  | some b => simp
  | none =>
    obtain ⟨p, hp, _⟩ := runEntries_prod_error ctx henv reg st ⟨e, he, hfe⟩
    rw [hok] at hp
    cases hp

/-- In production mode the run never consults the clock: the sampled
`Date.now()` value is discarded by the ternary. -/
theorem runEntries_clock_irrel (env : Option String) (fs : String → Option (List Nat))
    (c1 c2 : Nat → Nat) (henv : env = some "production")
    (reg : List (String × String)) (st : ResolveState) :
    runEntries ⟨env, fs, c1⟩ reg st = runEntries ⟨env, fs, c2⟩ reg st := by
  induction reg generalizing st with
  | nil => rfl
  | cons e rest ih =>
    cases hfe : fs e.2 with
    | none =>
      have h1 : cacheBustStep ⟨env, fs, c1⟩ st e = .error (.enoent e.2) := by
        simp [cacheBustStep, henv, md5File.sync, hfe]
      have h2 : cacheBustStep ⟨env, fs, c2⟩ st e = .error (.enoent e.2) := by
        simp [cacheBustStep, henv, md5File.sync, hfe]
      rw [runEntries, runEntries, h1, h2]
    | some b =>
      have h1 : cacheBustStep ⟨env, fs, c1⟩ st e =
          .ok ⟨jsAssign st.acc e.1 (.hash (md5Hex b)), st.tick + 1,
               st.trace ++ [.read e.2]⟩ := by
        simp [cacheBustStep, henv, md5File.sync, hfe]
      have h2 : cacheBustStep ⟨env, fs, c2⟩ st e =
          .ok ⟨jsAssign st.acc e.1 (.hash (md5Hex b)), st.tick + 1,
               st.trace ++ [.read e.2]⟩ := by
        simp [cacheBustStep, henv, md5File.sync, hfe]
      rw [runEntries, runEntries, h1, h2]
      exact ih _

/-- The keys of the production table are the registry keys in order. -/
theorem prodEntries_keys (fs : String → Option (List Nat)) :
    ∀ reg : List (String × String),
      (prodEntries fs reg).map Prod.fst = reg.map Prod.fst := by
  intro reg
  induction reg with
  | nil => rfl
  | cons e rest ih => simp [prodEntries] at ih ⊢

/-- The keys of the development table are the registry keys in order. -/
theorem devEntries_keys (clock : Nat → Nat) :
    ∀ (reg : List (String × String)) (i : Nat),
      (devEntries clock i reg).map Prod.fst = reg.map Prod.fst := by
  intro reg
  induction reg with
  | nil => intro i; rfl
  | cons e rest ih => intro i; simp [devEntries, ih]

/-- On success (in either mode) the accumulated keys are the starting keys
followed by the registry keys, in order. -/
theorem runEntries_keys (ctx : BuildCtx) (reg : List (String × String))
    (st st' : ResolveState)
    (hfresh : ∀ e ∈ reg, e.1 ∉ st.acc.map Prod.fst)
    (hnd : (reg.map Prod.fst).Nodup)
    (hok : runEntries ctx reg st = .ok st') :
    st'.acc.map Prod.fst = st.acc.map Prod.fst ++ reg.map Prod.fst := by
  by_cases henv : ctx.env = some "production"
  · have hall := runEntries_prod_ok_all ctx henv reg st st' hok
    rw [runEntries_prod_eq ctx henv reg st hall hfresh hnd] at hok
    injection hok with h
    rw [← h]
    simp [prodEntries_keys]
  · rw [runEntries_dev_eq ctx henv reg st hfresh hnd] at hok
    injection hok with h
    rw [← h]
    simp [devEntries_keys]

/-- Looking up a registry key in the production table yields the digest of
that entry's file. -/
theorem tableGet_prodEntries (fs : String → Option (List Nat)) :
    ∀ (reg : List (String × String)) (k p : String) (b : List Nat),
      (reg.map Prod.fst).Nodup → (k, p) ∈ reg → fs p = some b →
      tableGet (prodEntries fs reg) k = some (.hash (md5Hex b)) := by
  intro reg
  induction reg with
  | nil => intro k p b _ hmem _; simp at hmem
  | cons e rest ih =>
    intro k p b hnd hmem hfp
    rw [List.map_cons, List.nodup_cons] at hnd
    by_cases hek : e.1 = k
    · have he : e = (k, p) := by
        rcases List.mem_cons.mp hmem with h | h
        · exact h.symm
        · exact absurd (hek ▸ List.mem_map_of_mem Prod.fst h) hnd.1
      rw [he] at hek ⊢
      simp [prodEntries, tableGet, hfp]
    · have hmem' : (k, p) ∈ rest := by
        rcases List.mem_cons.mp hmem with h | h
        · exact absurd (show e.1 = k by rw [← h]) hek
        · exact h
      have := ih k p b hnd.2 hmem' hfp
      simpa [prodEntries, tableGet, hek] using this

/-- Looking up a registry key in the development table yields a numeric
timestamp token. -/
theorem tableGet_devEntries (clock : Nat → Nat) :
    ∀ (reg : List (String × String)) (i : Nat) (k p : String),
      (reg.map Prod.fst).Nodup → (k, p) ∈ reg →
      ∃ n, tableGet (devEntries clock i reg) k = some (.time n) := by
  intro reg
  induction reg with
  | nil => intro i k p _ hmem; simp at hmem
  | cons e rest ih =>
    intro i k p hnd hmem
    rw [List.map_cons, List.nodup_cons] at hnd
    by_cases hek : e.1 = k
    · exact ⟨clock i, by simp [devEntries, tableGet, hek]⟩
    · have hmem' : (k, p) ∈ rest := by
        rcases List.mem_cons.mp hmem with h | h
        · exact absurd (show e.1 = k by rw [← h]) hek
        · exact h
      obtain ⟨n, hn⟩ := ih (i + 1) k p hnd.2 hmem'
      exact ⟨n, by simp [devEntries, tableGet, hek, hn]⟩

/-- `String.replace` with a pattern that does not occur returns the string
unchanged. -/
theorem replaceFirst_no_occur :
    ∀ l pat r : List Char, containsSub l pat = false → replaceFirst l pat r = l := by
  intro l
  induction l with
  | nil =>
    intro pat r h
    simp [containsSub] at h
    simp [replaceFirst, h]
  | cons c rest ih =>
    intro pat r h
    simp [containsSub] at h
    rw [replaceFirst, if_neg (by simp [h.1]), ih pat r h.2]

/-! ## Claim theorems -/

/-- Claim C1: in production mode, every Asset Registry entry whose file
exists is assigned, in the returned Cache-Bust Table, the hexadecimal
encoding of the MD5 digest of that file's bytes. -/
theorem C1_production_digest (fs : String → Option (List Nat)) (clock : Nat → Nat)
    (t : List (String × Token)) (k p : String) (b : List Nat)
    (hok : cacheBust ⟨some "production", fs, clock⟩ = .ok t)
    (hmem : (k, p) ∈ files) (hb : fs p = some b) :
    tableGet t k = some (Token.hash (md5Hex b)) := by
  unfold cacheBust at hok
  cases hrun : runEntries ⟨some "production", fs, clock⟩ files ⟨[], 0, []⟩ with
  | error err => rw [hrun] at hok; simp [Except.map] at hok
  | ok st' =>
    rw [hrun] at hok
    simp [Except.map] at hok
    subst hok
    have hall := runEntries_prod_ok_all _ rfl files _ st' hrun
    rw [runEntries_prod_eq _ rfl files _ hall (by simp) (by decide)] at hrun
    injection hrun with h
    rw [← h]
    simpa using tableGet_prodEntries fs files k p b (by decide) hmem hb

/-- Witness for C1: a production run over a file system where `main.css`
holds the byte `97` and the other assets are empty files; the `mainCss`
key carries the MD5 digest of `[97]`. -/
theorem C1_production_digest_witness :
    cacheBust ⟨some "production",
        (fun p => if p = "./src/compiled-assets/main.css" then some [97] else some []),
        fun _ => 0⟩ =
      .ok [("mainCss", Token.hash (md5Hex [97])), ("mainJs", Token.hash (md5Hex [])),
           ("vendorJs", Token.hash (md5Hex []))]
    ∧ tableGet
        [("mainCss", Token.hash (md5Hex [97])), ("mainJs", Token.hash (md5Hex [])),
         ("vendorJs", Token.hash (md5Hex []))] "mainCss"
      = some (Token.hash (md5Hex [97])) := by
  constructor
  · rfl
  · exact C1_production_digest
      (fun p => if p = "./src/compiled-assets/main.css" then some [97] else some [])
      (fun _ => 0) _ "mainCss" "./src/compiled-assets/main.css" [97]
      rfl (by simp [files]) rfl

/-- Counterexample to Claim C2: with a clock that advances one millisecond
per sample, a development-mode invocation returns three distinct timestamp
tokens, so the entries of a single invocation do not all carry the same
timestamp. -/
theorem C2_counterexample :
    cacheBust ⟨some "development", (fun _ => none), fun i => i⟩ =
      .ok [("mainCss", .time 0), ("mainJs", .time 1), ("vendorJs", .time 2)]
    ∧ ("mainCss", Token.time 0) ∈
        [("mainCss", Token.time 0), ("mainJs", Token.time 1), ("vendorJs", Token.time 2)]
    ∧ ("mainJs", Token.time 1) ∈
        [("mainCss", Token.time 0), ("mainJs", Token.time 1), ("vendorJs", Token.time 2)]
    ∧ (("mainCss", Token.time 0) : String × Token).2 ≠
        (("mainJs", Token.time 1) : String × Token).2 := by
  exact ⟨rfl, by simp, by simp, by simp⟩

/-- Claim C2 as amended: the Resolver samples `Date.now()` afresh for each
registry entry, in entry order; the `i`-th entry receives the `i`-th clock
sample, so all entries share one token only when the clock does not
advance during the iteration. -/
theorem C2_dev_per_entry_clock (env : Option String) (fs : String → Option (List Nat))
    (clock : Nat → Nat) (henv : env ≠ some "production") :
    cacheBust ⟨env, fs, clock⟩ =
      .ok [("mainCss", .time (clock 0)), ("mainJs", .time (clock 1)),
           ("vendorJs", .time (clock 2))] := by
  unfold cacheBust
  rw [runEntries_dev_eq _ henv files _ (by simp) (by decide)]
  simp [files, devEntries, Except.map]

/-- Witness for the amended C2: a development run under a clock starting at
100 and ticking once per entry. -/
theorem C2_dev_per_entry_clock_witness :
    ((some "development" : Option String) ≠ some "production")
    ∧ cacheBust ⟨some "development", (fun _ => none), fun i => 100 + i⟩ =
        .ok [("mainCss", .time 100), ("mainJs", .time 101), ("vendorJs", .time 102)] := by
  refine ⟨by simp, ?_⟩
  have h := C2_dev_per_entry_clock (some "development") (fun _ => none)
    (fun i => 100 + i) (by simp)
  simpa using h

/-- Counterexample to Claim C3: the stem `/_pages/index/foo` has a
remaining path `/index/foo` that does not end in an `index` segment, yet
the Deriver does not keep it unchanged — JavaScript `replace` removes the
first occurrence of `/index` wherever it is. -/
theorem C3_counterexample :
    ("/index".toList.isSuffixOf (remainingStem "/_pages/index/foo".toList) = false)
    ∧ permalink "/_pages/index/foo".toList ≠
        remainingStem "/_pages/index/foo".toList ++ "/index.html".toList := by
  decide

/-- Claim C3 as amended: the Deriver removes the first occurrence of the
substring `/index` anywhere in the remaining stem, not only a trailing
`index` segment; for every stem whose remaining path contains no `/index`
substring at all, the full remaining path is kept unchanged before the
fixed output filename is appended. -/
theorem C3_no_index_substring_kept (stem : List Char)
    (h : containsSub (remainingStem stem) "/index".toList = false) :
    permalink stem = remainingStem stem ++ "/index.html".toList := by
  unfold permalink
  rw [replaceFirst_no_occur _ _ _ h]

/-- Witness for the amended C3: the stem `/_pages/foo/bar`, whose remaining
path `/foo/bar` contains no `/index` substring, maps to
`/foo/bar/index.html`. -/
theorem C3_no_index_substring_kept_witness :
    containsSub (remainingStem "/_pages/foo/bar".toList) "/index".toList = false
    ∧ permalink "/_pages/foo/bar".toList =
        remainingStem "/_pages/foo/bar".toList ++ "/index.html".toList :=
  ⟨by decide, C3_no_index_substring_kept _ (by decide)⟩

/-- Claim C4: the three specified stems map to `/index.html`,
`/foo/bar/index.html` and `/foo/baz/index.html` respectively, with the
source-root segment instantiated as `/_pages`. -/
theorem C4_permalink_examples :
    permalink "/_pages/index".toList = "/index.html".toList
    ∧ permalink "/_pages/foo/bar".toList = "/foo/bar/index.html".toList
    ∧ permalink "/_pages/foo/baz/index".toList = "/foo/baz/index.html".toList := by
  decide

/-- Claim C5: in production mode, a missing registry file makes the
Resolver fail with the propagated `ENOENT` of a missing path; no table
(and in particular no timestamp fallback) is produced. -/
theorem C5_production_missing_fatal (fs : String → Option (List Nat)) (clock : Nat → Nat)
    (hmiss : ∃ e ∈ files, fs e.2 = none) :
    ∃ p, cacheBust ⟨some "production", fs, clock⟩ = .error (.enoent p)
      ∧ fs p = none := by
  obtain ⟨p, hp, hnone⟩ :=
    runEntries_prod_error ⟨some "production", fs, clock⟩ rfl files ⟨[], 0, []⟩ hmiss
  exact ⟨p, by simp [cacheBust, hp, Except.map], hnone⟩

/-- Witness for C5: a production run over an empty file system fails with
`ENOENT`. -/
theorem C5_production_missing_fatal_witness :
    (∃ e ∈ files, (fun _ : String => (none : Option (List Nat))) e.2 = none)
    ∧ ∃ p, cacheBust ⟨some "production", (fun _ => none), fun _ => 0⟩ =
          .error (.enoent p)
        ∧ (fun _ : String => (none : Option (List Nat))) p = none := by
  have hmiss : ∃ e ∈ files, (fun _ : String => (none : Option (List Nat))) e.2 = none :=
    ⟨("mainCss", "./src/compiled-assets/main.css"), by simp [files], rfl⟩
  exact ⟨hmiss, C5_production_missing_fatal _ (fun _ => 0) hmiss⟩

/-- Claim C6: in any non-production mode the run succeeds for every
registry and every file system — even one where no file exists — and every
registry key is assigned a numeric timestamp token. -/
theorem C6_dev_always_succeeds (env : Option String) (fs : String → Option (List Nat))
    (clock : Nat → Nat) (reg : List (String × String))
    (henv : env ≠ some "production") (hnd : (reg.map Prod.fst).Nodup) :
    ∃ st', runEntries ⟨env, fs, clock⟩ reg ⟨[], 0, []⟩ = .ok st'
      ∧ ∀ e ∈ reg, ∃ n, tableGet st'.acc e.1 = some (.time n) := by
  refine ⟨_, runEntries_dev_eq _ henv reg _ (by simp) hnd, ?_⟩
  intro e he
  simpa using tableGet_devEntries clock reg 0 e.1 e.2 hnd he

/-- Witness for C6: a development run with no file present succeeds and
returns numeric tokens for the three registry keys. -/
theorem C6_dev_always_succeeds_witness :
    ((some "development" : Option String) ≠ some "production")
    ∧ (files.map Prod.fst).Nodup
    ∧ ∃ st', runEntries ⟨some "development", (fun _ => none), fun _ => 5⟩ files
          ⟨[], 0, []⟩ = .ok st'
        ∧ ∀ e ∈ files, ∃ n, tableGet st'.acc e.1 = some (.time n) := by
  exact ⟨by simp, by decide,
    C6_dev_always_succeeds (some "development") (fun _ => none) (fun _ => 5) files
      (by simp) (by decide)⟩

/-- Claim C7: whenever the Resolver returns a table (in any Build Mode),
its keys are exactly the registry's keys, in order — no more, no fewer. -/
theorem C7_table_keys (ctx : BuildCtx) (reg : List (String × String))
    (st' : ResolveState) (hnd : (reg.map Prod.fst).Nodup)
    (hok : runEntries ctx reg ⟨[], 0, []⟩ = .ok st') :
    st'.acc.map Prod.fst = reg.map Prod.fst := by
  simpa using runEntries_keys ctx reg _ st' (by simp) hnd hok

/-- Witness for C7: a concrete development run over the asset registry
yields exactly the keys `mainCss`, `mainJs`, `vendorJs`. -/
theorem C7_table_keys_witness :
    (files.map Prod.fst).Nodup
    ∧ runEntries ⟨some "development", (fun _ => none), fun _ => 9⟩ files ⟨[], 0, []⟩ =
        .ok ⟨[("mainCss", .time 9), ("mainJs", .time 9), ("vendorJs", .time 9)], 3, []⟩
    ∧ (ResolveState.acc
        ⟨[("mainCss", .time 9), ("mainJs", .time 9), ("vendorJs", .time 9)], 3, []⟩).map
          Prod.fst = files.map Prod.fst := by
  refine ⟨by decide, rfl, ?_⟩
  exact C7_table_keys ⟨some "development", (fun _ => none), fun _ => 9⟩ files _
    (by decide) rfl

/-- Claim C8: in production mode the table is a deterministic function of
the files' byte contents — the clock (the only other ambient state) is
irrelevant, so two invocations over unmodified files agree; and the digest
assigned to a path depends only on the bytes stored there, not on the file
name or path. -/
theorem C8_content_addressed :
    (∀ (fs : String → Option (List Nat)) (c1 c2 : Nat → Nat),
        cacheBust ⟨some "production", fs, c1⟩ = cacheBust ⟨some "production", fs, c2⟩)
    ∧ ∀ (fs : String → Option (List Nat)) (p1 p2 : String) (b : List Nat),
        fs p1 = some b → fs p2 = some b →
        md5File.sync fs p1 = md5File.sync fs p2 := by
  constructor
  · intro fs c1 c2
    unfold cacheBust
    rw [runEntries_clock_irrel (some "production") fs c1 c2 rfl]
  · intro fs p1 p2 b h1 h2
    simp [md5File.sync, h1, h2]

/-- Witness for C8: two production invocations under different clocks
agree, and two paths holding the same bytes receive the same digest. -/
theorem C8_content_addressed_witness :
    cacheBust ⟨some "production", (fun _ => some []), fun _ => 0⟩ =
      cacheBust ⟨some "production", (fun _ => some []), fun i => i + 7⟩
    ∧ ((fun _ : String => some ([97] : List Nat)) "x" = some [97])
    ∧ md5File.sync (fun _ => some [97]) "x" = md5File.sync (fun _ => some [97]) "y" :=
  ⟨C8_content_addressed.1 _ _ _, rfl,
   C8_content_addressed.2 (fun _ => some [97]) "x" "y" [97] rfl rfl⟩

/-- Claim C9: on a successful run the effect trace holds exactly one file
read per registry entry in production mode, no file effect at all in any
other mode, and never a write in either mode. -/
theorem C9_read_only_effects (ctx : BuildCtx) (reg : List (String × String))
    (st' : ResolveState) (hnd : (reg.map Prod.fst).Nodup)
    (hok : runEntries ctx reg ⟨[], 0, []⟩ = .ok st') :
    (ctx.env = some "production" → st'.trace = reg.map fun e => Effect.read e.2)
    ∧ (ctx.env ≠ some "production" → st'.trace = [])
    ∧ ∀ eff ∈ st'.trace, ∃ p, eff = Effect.read p := by
  have hprod : ctx.env = some "production" →
      st'.trace = reg.map fun e => Effect.read e.2 := by
    intro henv
    have hall := runEntries_prod_ok_all ctx henv reg _ st' hok
    rw [runEntries_prod_eq ctx henv reg _ hall (by simp) hnd] at hok
    injection hok with h
    rw [← h]
    simp
  have hdev : ctx.env ≠ some "production" → st'.trace = [] := by
    intro henv
    rw [runEntries_dev_eq ctx henv reg _ (by simp) hnd] at hok
    injection hok with h
    rw [← h]
  refine ⟨hprod, hdev, ?_⟩
  intro eff heff
  by_cases henv : ctx.env = some "production"
  · rw [hprod henv] at heff
    obtain ⟨e, he, rfl⟩ := List.mem_map.mp heff
    exact ⟨e.2, rfl⟩
  · rw [hdev henv] at heff
    simp at heff

/-- Witness for C9: a successful production run over a total file system
reads each of the three asset paths once, and its trace holds no write. -/
theorem C9_read_only_effects_witness :
    (files.map Prod.fst).Nodup
    ∧ runEntries ⟨some "production", (fun _ => some []), fun _ => 0⟩ files ⟨[], 0, []⟩ =
        .ok ⟨[("mainCss", Token.hash (md5Hex [])), ("mainJs", Token.hash (md5Hex [])),
              ("vendorJs", Token.hash (md5Hex []))], 3,
             [.read "./src/compiled-assets/main.css", .read "./src/compiled-assets/main.js",
              .read "./src/compiled-assets/vendor.js"]⟩
    ∧ ∀ eff ∈ (ResolveState.trace
          ⟨[("mainCss", Token.hash (md5Hex [])), ("mainJs", Token.hash (md5Hex [])),
            ("vendorJs", Token.hash (md5Hex []))], 3,
           [.read "./src/compiled-assets/main.css", .read "./src/compiled-assets/main.js",
            .read "./src/compiled-assets/vendor.js"]⟩),
        ∃ p, eff = Effect.read p := by
  refine ⟨by decide, rfl, ?_⟩
  exact (C9_read_only_effects ⟨some "production", (fun _ => some []), fun _ => 0⟩ files _
    (by decide) rfl).2.2

/-- Claim C10: whenever `cacheBust` returns a table — in any Build Mode —
its keys are `mainCss`, `mainJs`, `vendorJs`, in the declaration order of
the registry literal. -/
theorem C10_key_declaration_order (ctx : BuildCtx) (t : List (String × Token))
    (hok : cacheBust ctx = .ok t) :
    t.map Prod.fst = ["mainCss", "mainJs", "vendorJs"] := by
  unfold cacheBust at hok
  cases hrun : runEntries ctx files ⟨[], 0, []⟩ with
  | error err => rw [hrun] at hok; simp [Except.map] at hok
  | ok st' =>
    rw [hrun] at hok
    simp [Except.map] at hok
    subst hok
    have h := runEntries_keys ctx files _ st' (by simp) (by decide) hrun
    simpa [files] using h

/-- Witness for C10: a concrete development invocation returns the keys in
declaration order. -/
theorem C10_key_declaration_order_witness :
    cacheBust ⟨some "development", (fun _ => none), fun _ => 42⟩ =
      .ok [("mainCss", .time 42), ("mainJs", .time 42), ("vendorJs", .time 42)]
    ∧ ([("mainCss", Token.time 42), ("mainJs", .time 42), ("vendorJs", .time 42)]).map
        Prod.fst = ["mainCss", "mainJs", "vendorJs"] := by
  refine ⟨rfl, ?_⟩
  exact C10_key_declaration_order ⟨some "development", (fun _ => none), fun _ => 42⟩ _ rfl

end elf
